import Mathlib

/-!
Verification of the YouTube video summarizer repository.

Part A embeds the TypeScript utilities that ship under `src/apps/web`
(YouTube URL validation, timestamp conversion, the zustand app store).
Part B models, from the specification, the backend components whose code
is not part of the shipped sources (orchestration engine, cache lease,
rate limiter, retrieval index): the READMEs in the repository describe
them but their implementation files are absent.

Strings are embedded as `List Char`; JavaScript regular-expression
matching is embedded as explicit leftmost-match scanning functions.
-/

namespace YtUtil

/-- Character class of the JavaScript whitespace set removed by
`String.prototype.trim` (ASCII whitespace, NBSP, BOM, Unicode space
separators and line separators). -/
def isJsWs (c : Char) : Bool :=
  c = ' ' || c = '\t' || c = '\n' || c = '\r' ||
  c = (Char.ofNat 0x0b) || c = (Char.ofNat 0x0c) ||
  c = (Char.ofNat 0xa0) || c = (Char.ofNat 0xfeff) ||
  c = (Char.ofNat 0x1680) ||
  (0x2000 ≤ c.toNat && c.toNat ≤ 0x200a) ||
  c = (Char.ofNat 0x2028) || c = (Char.ofNat 0x2029) ||
  c = (Char.ofNat 0x202f) || c = (Char.ofNat 0x205f) ||
  c = (Char.ofNat 0x3000)

/-- Embeds `url.trim()`: drop JS whitespace from both ends. -/
def jsTrim (cs : List Char) : List Char :=
  ((cs.dropWhile isJsWs).reverse.dropWhile isJsWs).reverse

/-- Leftmost match of the regex `[?&]v=([^&]+)` — returns the capture
group: after the first occurrence of `?v=` or `&v=` that is followed by
at least one non-`&` character, the maximal run of non-`&` characters. -/
def scanWatch : List Char → Option (List Char)
  | [] => none
  | c :: rest =>
    if c = '?' || c = '&' then
      match rest with
      | 'v' :: '=' :: d :: tail =>
        if d = '&' then scanWatch rest
        else some ((d :: tail).takeWhile (fun x => x ≠ '&'))
      | _ => scanWatch rest
    else scanWatch rest

/-- Try to consume the literal `lit` at the head of the list, returning
the remainder on success. -/
def matchLit : List Char → List Char → Option (List Char)
  | [], cs => some cs
  | _ :: _, [] => none
  | p :: ps, c :: cs => if p = c then matchLit ps cs else none

/-- Leftmost match of a regex of the shape `lit([^stop]+)` — returns the
capture group after the first occurrence of the literal `lit` that is
followed by at least one character different from `stop`. -/
def scanLit (lit : List Char) (stop : Char) : List Char → Option (List Char)
  | [] => none
  | c :: rest =>
    match matchLit lit (c :: rest) with
    | some (d :: tail) =>
      if d = stop then scanLit lit stop rest
      else some ((d :: tail).takeWhile (fun x => x ≠ stop))
    | _ => scanLit lit stop rest

/-- Character class `[a-zA-Z0-9_-]` used by the video-id regex. -/
def isIdChar (c : Char) : Bool :=
  (('a' ≤ c && c ≤ 'z') || ('A' ≤ c && c ≤ 'Z') ||
   ('0' ≤ c && c ≤ '9') || c = '_' || c = '-')

/-- Test of the anchored regex `^[a-zA-Z0-9_-]{11}$`. -/
def isVideoId11 (cs : List Char) : Bool :=
  cs.length = 11 && cs.all isIdChar

/-- Embeds `extractVideoId` from the YouTube utilities: trim, then try
the watch-URL regex, the `youtu.be` short-URL regex, the embed-URL
regex, and finally the bare 11-character video-id form. -/
def extractVideoId (url : List Char) : Option (List Char) :=
  if url = [] then none
  else
    let u := jsTrim url
    match scanWatch u with
    | some m => some m
    | none =>
      match scanLit ("youtu.be/".toList) '?' u with
      | some m => some m
      | none =>
        match scanLit ("youtube.com/embed/".toList) '?' u with
        | some m => some m
        | none => if isVideoId11 u then some u else none

/-- Result record of `validateYouTubeUrl` (the `error` field is reduced
to which of the two error messages was produced). -/
structure YouTubeVideoInfo where
  videoId : List Char
  url : List Char
  isValid : Bool
  errMsg : Option Nat
deriving Repr, DecidableEq

/-- The canonical watch-URL prefix used when validation succeeds. -/
def canonicalPrefix : List Char := "https://www.youtube.com/watch?v=".toList

/-- Embeds `validateYouTubeUrl`: extract the id, reject when absent
(error 0) or when it fails the 11-character id regex (error 1), and
otherwise return the canonical watch URL built from the id. -/
def validateYouTubeUrl (url : List Char) : YouTubeVideoInfo :=
  match extractVideoId url with
  | none => ⟨[], url, false, some 0⟩
  | some videoId =>
    if isVideoId11 videoId then
      ⟨videoId, canonicalPrefix ++ videoId, true, none⟩
    else
      ⟨videoId, url, false, some 1⟩

end YtUtil

namespace YtUtil

theorem dropWhile_head_not (p : Char → Bool) (l : List Char) :
    l.dropWhile p = [] ∨ ∃ a t, l.dropWhile p = a :: t ∧ p a = false := by
  induction l with
  | nil => exact Or.inl rfl
  | cons a t ih =>
    by_cases h : p a
    · simpa [List.dropWhile, h] using ih
    · exact Or.inr ⟨a, t, by simp [List.dropWhile, h], by simp [h]⟩

theorem dropWhile_of_head_false {p : Char → Bool} {a : Char} (h : p a = false)
    (t : List Char) : (a :: t).dropWhile p = a :: t := by
  simp [List.dropWhile, h]

theorem dropWhile_idem (p : Char → Bool) (l : List Char) :
    (l.dropWhile p).dropWhile p = l.dropWhile p := by
  rcases dropWhile_head_not p l with h | ⟨a, t, h, hp⟩
  · rw [h]; rfl
  · rw [h, dropWhile_of_head_false hp]

/-- The trimmed-right part is a prefix: any list splits as the reverse of
the dropWhile of its reverse, followed by the trailing run. -/
theorem eq_rdrop_append (p : Char → Bool) (y : List Char) :
    y = (y.reverse.dropWhile p).reverse ++ (y.reverse.takeWhile p).reverse := by
  calc y = y.reverse.reverse := (List.reverse_reverse y).symm
    _ = (y.reverse.takeWhile p ++ y.reverse.dropWhile p).reverse := by
        rw [List.takeWhile_append_dropWhile]
    _ = (y.reverse.dropWhile p).reverse ++ (y.reverse.takeWhile p).reverse := by
        rw [List.reverse_append]

theorem jsTrim_idem (cs : List Char) : jsTrim (jsTrim cs) = jsTrim cs := by
  have key : ∀ y : List Char, y.dropWhile isJsWs = y →
      jsTrim ((y.reverse.dropWhile isJsWs).reverse)
        = (y.reverse.dropWhile isJsWs).reverse := by
    intro y hy
    have hsplit := eq_rdrop_append isJsWs y
    have hA : ((y.reverse.dropWhile isJsWs).reverse).dropWhile isJsWs
        = (y.reverse.dropWhile isJsWs).reverse := by
      cases hrc : (y.reverse.dropWhile isJsWs).reverse with
      | nil => rfl
      | cons a t =>
        rw [hrc] at hsplit
        rcases dropWhile_head_not isJsWs y with h0 | ⟨b, u, h0, hb⟩
        · rw [hy] at h0
          rw [h0] at hsplit
          simp at hsplit
        · rw [hy] at h0
          rw [h0] at hsplit
          have hba : b = a := by simpa using congrArg List.head? hsplit
          exact dropWhile_of_head_false (hba ▸ hb) t
    have hB : (((y.reverse.dropWhile isJsWs).reverse).reverse).dropWhile isJsWs
        = y.reverse.dropWhile isJsWs := by
      rw [List.reverse_reverse]
      exact dropWhile_idem isJsWs y.reverse
    unfold jsTrim
    rw [hA, hB]
  exact key (cs.dropWhile isJsWs) (dropWhile_idem isJsWs cs)

theorem extractVideoId_jsTrim (url : List Char) :
    extractVideoId (jsTrim url) = extractVideoId url := by
  by_cases h0 : url = []
  · subst h0; rfl
  · by_cases h1 : jsTrim url = []
    · rw [h1]
      unfold extractVideoId
      rw [if_neg h0, h1]
      rfl
    · unfold extractVideoId
      rw [if_neg h0, if_neg h1, jsTrim_idem]

end YtUtil

namespace YtUtil

theorem validateYouTubeUrl_eq_none {url : List Char}
    (h : extractVideoId url = none) :
    validateYouTubeUrl url = ⟨[], url, false, some 0⟩ := by
  unfold validateYouTubeUrl
  rw [h]

theorem validateYouTubeUrl_eq_valid {url v : List Char}
    (h : extractVideoId url = some v) (hid : isVideoId11 v = true) :
    validateYouTubeUrl url = ⟨v, canonicalPrefix ++ v, true, none⟩ := by
  unfold validateYouTubeUrl
  rw [h]
  simp [hid]

theorem validateYouTubeUrl_eq_invalid {url v : List Char}
    (h : extractVideoId url = some v) (hid : isVideoId11 v = false) :
    validateYouTubeUrl url = ⟨v, url, false, some 1⟩ := by
  unfold validateYouTubeUrl
  rw [h]
  simp [hid]

/-- C8: `validateYouTubeUrl(url).isValid` holds exactly when
`extractVideoId(url.trim())` yields a string of exactly 11 characters
drawn from letters, digits, `-` and `_`; and on success the returned
`url` field is the canonical watch URL built from that video id,
regardless of the input URL shape. -/
theorem c8_validate_iff_extract (url : List Char) :
    ((validateYouTubeUrl url).isValid = true ↔
      ∃ vid, extractVideoId (jsTrim url) = some vid ∧
        vid.length = 11 ∧ vid.all isIdChar = true)
    ∧ ((validateYouTubeUrl url).isValid = true →
        extractVideoId (jsTrim url) = some (validateYouTubeUrl url).videoId ∧
        (validateYouTubeUrl url).url =
          canonicalPrefix ++ (validateYouTubeUrl url).videoId) := by
  rw [extractVideoId_jsTrim]
  cases h : extractVideoId url with
  | none =>
    rw [validateYouTubeUrl_eq_none h]
    refine ⟨⟨fun hv => absurd hv (by simp), ?_⟩, fun hv => absurd hv (by simp)⟩
    rintro ⟨vid, hvid, -⟩
    exact absurd hvid (by simp)
  | some v =>
    by_cases hid : isVideoId11 v = true
    · rw [validateYouTubeUrl_eq_valid h hid]
      have hh : v.length = 11 ∧ v.all isIdChar = true := by
        simpa [isVideoId11] using hid
      exact ⟨⟨fun _ => ⟨v, rfl, hh.1, hh.2⟩, fun _ => rfl⟩, fun _ => ⟨rfl, rfl⟩⟩
    · have hid2 : isVideoId11 v = false := by simpa using hid
      rw [validateYouTubeUrl_eq_invalid h hid2]
      refine ⟨⟨fun hv => absurd hv (by simp), ?_⟩, fun hv => absurd hv (by simp)⟩
      rintro ⟨vid, hvid, hlen, hall⟩
      have hv : v = vid := by simpa using hvid
      subst hv
      have hgood : isVideoId11 v = true := by simp [isVideoId11, hlen, hall]
      rw [hgood] at hid2
      exact absurd hid2 (by simp)

/-- Witness for C8 at the concrete short URL
`https://youtu.be/dQw4w9WgXcQ`. -/
theorem c8_validate_iff_extract_witness :
    (validateYouTubeUrl ("https://youtu.be/dQw4w9WgXcQ".toList)).isValid = true ∧
    extractVideoId (jsTrim ("https://youtu.be/dQw4w9WgXcQ".toList)) =
      some (validateYouTubeUrl ("https://youtu.be/dQw4w9WgXcQ".toList)).videoId ∧
    (validateYouTubeUrl ("https://youtu.be/dQw4w9WgXcQ".toList)).url =
      canonicalPrefix ++
        (validateYouTubeUrl ("https://youtu.be/dQw4w9WgXcQ".toList)).videoId := by
  have h :=
    (c8_validate_iff_extract ("https://youtu.be/dQw4w9WgXcQ".toList)).2 (by decide)
  exact ⟨by decide, h.1, h.2⟩

end YtUtil

namespace YtUtil

/-- Decimal digit character for a value below 10 (used by the embedding
of JavaScript number-to-string conversion). -/
def digitChar (n : Nat) : Char :=
  match n with
  | 0 => '0'
  | 1 => '1'
  | 2 => '2'
  | 3 => '3'
  | 4 => '4'
  | 5 => '5'
  | 6 => '6'
  | 7 => '7'
  | 8 => '8'
  | 9 => '9'
  | _ => '*'

/-- Value of a decimal digit character. -/
def digitVal (c : Char) : Nat := c.toNat - 48

/-- Decimal rendering of a natural number, most significant digit
first — embeds JavaScript `n.toString()` for non-negative integers. -/
def toDecimal (n : Nat) : List Char :=
  if _h : n < 10 then [digitChar n]
  else toDecimal (n / 10) ++ [digitChar (n % 10)]
decreasing_by exact Nat.div_lt_self (by omega) (by norm_num)

/-- Decimal value of a digit string. -/
def parseDec (cs : List Char) : Nat :=
  cs.foldl (fun a c => a * 10 + digitVal c) 0

/-- Models JavaScript `Number(str)` on the fragment this development
exercises: a string of decimal digits (including the empty string,
which `Number` maps to 0) denotes its decimal value; every other string
is collapsed to NaN (`none`). Strings denoting non-natural numbers
(signs, fractions, exponents) never arise from timestamp rendering. -/
def jsNumber (cs : List Char) : Option Nat :=
  if cs.all Char.isDigit then some (parseDec cs) else none

/-- Embeds `timestamp.split(':')`. -/
def splitColon : List Char → List (List Char)
  | [] => [[]]
  | c :: rest =>
    if c = ':' then [] :: splitColon rest
    else
      match splitColon rest with
      | [] => [[c]]
      | g :: gs => (c :: g) :: gs

/-- Embeds `timestampToSeconds`: split at `:`, convert each part with
`Number`, and combine as MM:SS or HH:MM:SS; any other shape returns 0.
`none` is NaN, which the source propagates through the arithmetic. -/
def timestampToSeconds (ts : List Char) : Option Nat :=
  match (splitColon ts).map jsNumber with
  | [a, b] =>
    match a, b with
    | some x, some y => some (x * 60 + y)
    | _, _ => none
  | [a, b, c] =>
    match a, b, c with
    | some x, some y, some z => some (x * 3600 + y * 60 + z)
    | _, _, _ => none
  | _ => some 0

/-- Embeds `.toString().padStart(2, '0')`. -/
def padStart2 (cs : List Char) : List Char :=
  if cs.length ≥ 2 then cs else List.replicate (2 - cs.length) '0' ++ cs

/-- Embeds `secondsToTimestamp`: `H:MM:SS` when at least one hour,
`MM:SS` otherwise (`Math.floor` is the identity on naturals). -/
def secondsToTimestamp (s : Nat) : List Char :=
  let hours := s / 3600
  let minutes := (s % 3600) / 60
  let secs := s % 60
  if hours > 0 then
    toDecimal hours ++ ':' :: (padStart2 (toDecimal minutes) ++ ':' :: padStart2 (toDecimal secs))
  else
    toDecimal minutes ++ ':' :: padStart2 (toDecimal secs)

end YtUtil

namespace YtUtil

theorem digitChar_spec : ∀ k, k < 10 →
    digitVal (digitChar k) = k ∧ (digitChar k).isDigit = true := by
  decide

theorem parseDec_append_digit (xs : List Char) (c : Char) :
    parseDec (xs ++ [c]) = parseDec xs * 10 + digitVal c := by
  unfold parseDec
  rw [List.foldl_append]
  rfl

theorem toDecimal_parseDec (n : Nat) : parseDec (toDecimal n) = n := by
  induction n using Nat.strong_induction_on with
  | _ n ih =>
    rw [toDecimal]
    by_cases h : n < 10
    · rw [dif_pos h]
      have hd := (digitChar_spec n h).1
      unfold parseDec
      simpa using hd
    · rw [dif_neg h]
      rw [parseDec_append_digit]
      have hdiv : n / 10 < n := Nat.div_lt_self (by omega) (by norm_num)
      rw [ih (n / 10) hdiv]
      have hm := (digitChar_spec (n % 10) (Nat.mod_lt n (by norm_num))).1
      rw [hm]
      omega

theorem toDecimal_all_digits (n : Nat) :
    (toDecimal n).all Char.isDigit = true := by
  induction n using Nat.strong_induction_on with
  | _ n ih =>
    rw [toDecimal]
    by_cases h : n < 10
    · rw [dif_pos h]
      simp [(digitChar_spec n h).2]
    · rw [dif_neg h]
      have hdiv : n / 10 < n := Nat.div_lt_self (by omega) (by norm_num)
      have h1 := ih (n / 10) hdiv
      have h2 := (digitChar_spec (n % 10) (Nat.mod_lt n (by norm_num))).2
      simp only [List.all_append, List.all_cons, List.all_nil, h1, h2]
      rfl

theorem isDigit_ne_colon {c : Char} (h : c.isDigit = true) : c ≠ ':' := by
  intro heq
  rw [heq] at h
  exact absurd h (by decide)

theorem padStart2_all_digits {cs : List Char}
    (h : cs.all Char.isDigit = true) :
    (padStart2 cs).all Char.isDigit = true := by
  unfold padStart2
  by_cases hl : cs.length ≥ 2
  · rw [if_pos hl]; exact h
  · rw [if_neg hl]
    simp only [List.all_append, h, Bool.and_true]
    have : ∀ k, (List.replicate k '0').all Char.isDigit = true := by
      intro k
      induction k with
      | zero => rfl
      | succ m ihm => simp [List.replicate_succ, ihm]
    simp [this]

theorem parseDec_replicate_zero (k : Nat) (cs : List Char) :
    parseDec (List.replicate k '0' ++ cs) = parseDec cs := by
  induction k with
  | zero => rfl
  | succ m ihm =>
    rw [List.replicate_succ]
    show parseDec ('0' :: (List.replicate m '0' ++ cs)) = parseDec cs
    unfold parseDec at ihm ⊢
    simpa using ihm

theorem padStart2_parseDec (cs : List Char) :
    parseDec (padStart2 cs) = parseDec cs := by
  unfold padStart2
  by_cases hl : cs.length ≥ 2
  · rw [if_pos hl]
  · rw [if_neg hl]
    exact parseDec_replicate_zero _ cs

theorem splitColon_no_colon (xs : List Char)
    (h : ∀ c ∈ xs, c ≠ ':') : splitColon xs = [xs] := by
  induction xs with
  | nil => rfl
  | cons a t iht =>
    have ha : a ≠ ':' := h a (by simp)
    have ht : splitColon t = [t] := iht (fun c hc => h c (by simp [hc]))
    simp [splitColon, ha, ht]

theorem splitColon_append (xs ys : List Char)
    (h : ∀ c ∈ xs, c ≠ ':') :
    splitColon (xs ++ ':' :: ys) = xs :: splitColon ys := by
  induction xs with
  | nil =>
    show splitColon (':' :: ys) = [] :: splitColon ys
    simp [splitColon]
  | cons a t iht =>
    have ha : a ≠ ':' := h a (by simp)
    have ht := iht (fun c hc => h c (by simp [hc]))
    show splitColon (a :: (t ++ ':' :: ys)) = (a :: t) :: splitColon ys
    simp [splitColon, ha, ht]

theorem all_digits_no_colon {xs : List Char}
    (h : xs.all Char.isDigit = true) : ∀ c ∈ xs, c ≠ ':' := by
  intro c hc
  exact isDigit_ne_colon (by
    rw [List.all_eq_true] at h
    exact h c hc)

theorem jsNumber_digits {cs : List Char} (h : cs.all Char.isDigit = true) :
    jsNumber cs = some (parseDec cs) := by
  unfold jsNumber
  rw [if_pos h]

end YtUtil

namespace YtUtil

/-- C9: converting a natural number of seconds to a timestamp string and
parsing it back is the identity: `timestampToSeconds(secondsToTimestamp(s))`
returns `s` (never NaN) for every natural `s`. -/
theorem c9_timestamp_roundtrip (s : Nat) :
    timestampToSeconds (secondsToTimestamp s) = some s := by
  unfold secondsToTimestamp
  by_cases hh : s / 3600 > 0
  · rw [if_pos hh]
    have hHd := toDecimal_all_digits (s / 3600)
    have hMd := padStart2_all_digits (toDecimal_all_digits ((s % 3600) / 60))
    have hSd := padStart2_all_digits (toDecimal_all_digits (s % 60))
    have hsplit1 := splitColon_append
      (toDecimal (s / 3600))
      (padStart2 (toDecimal ((s % 3600) / 60)) ++ ':' :: padStart2 (toDecimal (s % 60)))
      (all_digits_no_colon hHd)
    have hsplit2 := splitColon_append
      (padStart2 (toDecimal ((s % 3600) / 60)))
      (padStart2 (toDecimal (s % 60)))
      (all_digits_no_colon hMd)
    have hsplit3 := splitColon_no_colon
      (padStart2 (toDecimal (s % 60)))
      (all_digits_no_colon hSd)
    unfold timestampToSeconds
    rw [hsplit1, hsplit2, hsplit3]
    simp only [List.map_cons, List.map_nil]
    rw [jsNumber_digits hHd, jsNumber_digits hMd, jsNumber_digits hSd]
    rw [toDecimal_parseDec, padStart2_parseDec, padStart2_parseDec,
      toDecimal_parseDec, toDecimal_parseDec]
    exact Option.some_inj.mpr (by omega)
  · rw [if_neg hh]
    have hMd := toDecimal_all_digits ((s % 3600) / 60)
    have hSd := padStart2_all_digits (toDecimal_all_digits (s % 60))
    have hsplit1 := splitColon_append
      (toDecimal ((s % 3600) / 60))
      (padStart2 (toDecimal (s % 60)))
      (all_digits_no_colon hMd)
    have hsplit2 := splitColon_no_colon
      (padStart2 (toDecimal (s % 60)))
      (all_digits_no_colon hSd)
    unfold timestampToSeconds
    rw [hsplit1, hsplit2]
    simp only [List.map_cons, List.map_nil]
    rw [jsNumber_digits hMd, jsNumber_digits hSd]
    rw [toDecimal_parseDec, padStart2_parseDec, toDecimal_parseDec]
    exact Option.some_inj.mpr (by omega)

end YtUtil

namespace Store

/-- Agent status union type from the app store. -/
inductive AgentStatus
  | idle
  | running
  | completed
  | err
deriving Repr, DecidableEq

/-- The `Agent` interface of the app store. -/
structure Agent where
  id : List Char
  name : List Char
  status : AgentStatus
  icon : Option (List Char)
  progress : Option Nat
  result : Option (List Char)
  duration : Option Nat
deriving Repr, DecidableEq

/-- A `Partial<Agent>`: each field is present (and overrides) or absent. -/
structure AgentUpdate where
  id : Option (List Char)
  name : Option (List Char)
  status : Option AgentStatus
  icon : Option (Option (List Char))
  progress : Option (Option Nat)
  result : Option (Option (List Char))
  duration : Option (Option Nat)
deriving Repr, DecidableEq

/-- Object spread `\x7b ...agent, ...updates \x7d`: fields present in
`updates` override the corresponding fields of `agent`. -/
def spreadAgent (agent : Agent) (updates : AgentUpdate) : Agent :=
  ⟨updates.id.getD agent.id,
   updates.name.getD agent.name,
   updates.status.getD agent.status,
   updates.icon.getD agent.icon,
   updates.progress.getD agent.progress,
   updates.result.getD agent.result,
   updates.duration.getD agent.duration⟩

/-- Summary mode union type. -/
inductive SummaryMode
  | quick
  | standard
  | research
  | educational
deriving Repr, DecidableEq

/-- The `Summary` interface of the app store. -/
structure Summary where
  id : List Char
  videoId : List Char
  videoTitle : List Char
  videoUrl : List Char
  thumbnail : Option (List Char)
  mode : SummaryMode
  content : List Char
  timestamps : Option (List (List Char × List Char))
  citations : Option (List (List Char))
  createdAt : Nat
  duration : Option Nat
deriving Repr, DecidableEq

/-- The `ApiKeys` interface. -/
structure ApiKeys where
  openrouter : Option (List Char)
  googleAi : Option (List Char)
deriving Repr, DecidableEq

/-- Backend union type of `AppSettings`. -/
inductive Backend
  | python
  | nodejs
  | go
  | rust
  | ruby
deriving Repr, DecidableEq

/-- The feature toggles of `AppSettings`. -/
structure SettingsFeatures where
  factChecking : Bool
  webResearch : Bool
  citations : Bool
  translation : Bool
deriving Repr, DecidableEq

/-- The `AppSettings` interface. -/
structure AppSettings where
  backend : Backend
  defaultMode : SummaryMode
  features : SettingsFeatures
deriving Repr, DecidableEq

/-- The stats record of the app store. -/
structure Stats where
  totalSummaries : Nat
  totalQuestions : Nat
  totalExports : Nat
deriving Repr, DecidableEq

/-- The data fields of the zustand `AppState` store. -/
structure AppState where
  isProcessing : Bool
  currentVideoUrl : Option (List Char)
  currentSummary : Option Summary
  agents : List Agent
  summaries : List Summary
  apiKeys : ApiKeys
  settings : AppSettings
  stats : Stats
deriving Repr, DecidableEq

/-- Embeds the `updateAgent` action: map over the agents list, spreading
the partial update into the agent whose id matches; zustand `set` merges
only the returned `agents` field into the store. -/
def updateAgent (state : AppState) (agentId : List Char)
    (updates : AgentUpdate) : AppState :=
  { state with
    agents := state.agents.map (fun agent =>
      if agent.id = agentId then spreadAgent agent updates else agent) }

end Store

namespace Store

/-- C10: `updateAgent` preserves the length and order of the agents list
(pointwise: every position holds either the original agent or its
updated version), leaves every agent whose id differs from `agentId`
unchanged, and leaves all other store fields untouched. -/
theorem c10_updateAgent_frame (state : AppState) (agentId : List Char)
    (updates : AgentUpdate) :
    (updateAgent state agentId updates).agents.length = state.agents.length
    ∧ (∀ (i : Nat) (a : Agent), state.agents[i]? = some a → a.id ≠ agentId →
        (updateAgent state agentId updates).agents[i]? = some a)
    ∧ (updateAgent state agentId updates).summaries = state.summaries
    ∧ (updateAgent state agentId updates).apiKeys = state.apiKeys
    ∧ (updateAgent state agentId updates).settings = state.settings
    ∧ (updateAgent state agentId updates).stats = state.stats
    ∧ (updateAgent state agentId updates).isProcessing = state.isProcessing
    ∧ (updateAgent state agentId updates).currentSummary = state.currentSummary
    ∧ (updateAgent state agentId updates).currentVideoUrl
        = state.currentVideoUrl := by
  refine ⟨?_, ?_, rfl, rfl, rfl, rfl, rfl, rfl, rfl⟩
  · simp [updateAgent]
  · intro i a hget hne
    unfold updateAgent
    simp only [List.getElem?_map, hget, Option.map_some]
    simp [hne]

/-- Witness for C10: a concrete two-agent store where the summarizer is
updated and the extractor at position 0 is untouched. -/
theorem c10_updateAgent_frame_witness :
    (let a0 : Agent :=
      ⟨"extractor".toList, "Extractor Agent".toList, AgentStatus.idle,
        none, none, none, none⟩
    let a1 : Agent :=
      ⟨"summarizer".toList, "Summarizer Agent".toList, AgentStatus.idle,
        none, none, none, none⟩
    let st : AppState :=
      ⟨false, none, none, [a0, a1], [], ⟨none, none⟩,
        ⟨Backend.python, SummaryMode.standard, ⟨true, true, true, false⟩⟩,
        ⟨0, 0, 0⟩⟩
    let upd : AgentUpdate :=
      ⟨none, none, some AgentStatus.running, none, some (some 40),
        none, none⟩
    (updateAgent st "summarizer".toList upd).agents[0]? = some a0
      ∧ (updateAgent st "summarizer".toList upd).stats = st.stats) := by
  refine ⟨?_, ?_⟩
  · exact (c10_updateAgent_frame _ _ _).2.1 0 _ (by decide) (by decide)
  · exact (c10_updateAgent_frame _ _ _).2.2.2.2.2.1

end Store

namespace Pipeline

/-- Summary mode (§3). -/
inductive Mode
  | quick
  | standard
  | research
  | educational
deriving Repr, DecidableEq, Fintype

/-- Pipeline stage (§4.4). -/
inductive Stage
  | extract
  | summarize
  | research
  | factCheck
  | cite
deriving Repr, DecidableEq, Fintype

/-- Feature flags of a request (§3). -/
structure Features where
  factChecking : Bool
  webResearch : Bool
  citations : Bool
  translation : Bool
deriving Repr, DecidableEq, Fintype

/-- The empty feature-flag set. -/
def noFeatures : Features := ⟨false, false, false, false⟩

/-- Modelled from the spec: the per-mode mandatory stage table of §4.4,
matching the `WORKFLOW_CONFIGS` table reproduced in the repository
README (the backend `config.py` is not among the shipped sources). -/
def modeStages : Mode → List Stage
  | .quick => [.extract, .summarize]
  | .standard => [.extract, .summarize, .cite]
  | .research => [.extract, .summarize, .research, .factCheck, .cite]
  | .educational => [.extract, .summarize, .cite]

/-- Modelled from the spec: whether a stage belongs to the resolved
sequence for (mode, features). The mode sets the default set and flags
only extend it (§4.4): Research is gated by `webResearch` or
mode=research, Fact-Check by `factChecking` or mode=research, Cite is in
every non-quick mode's default set and added to quick by `citations`;
Extract and Summarize are mandatory everywhere. -/
def stageEnabled (m : Mode) (f : Features) : Stage → Bool
  | .extract => true
  | .summarize => true
  | .research => m = Mode.research || f.webResearch
  | .factCheck => m = Mode.research || f.factChecking
  | .cite =>
    m = Mode.standard || m = Mode.research || m = Mode.educational ||
      f.citations

/-- Modelled from the spec: the resolved ordered stage list, evaluated
once per run (§4.5, §9): the canonical order Extract, Summarize,
Research, Fact-Check, Cite filtered by `stageEnabled` (Fact-Check runs
after Research so it can use research evidence). -/
def stageSequence (m : Mode) (f : Features) : List Stage :=
  [Stage.extract, Stage.summarize, Stage.research, Stage.factCheck,
    Stage.cite].filter (stageEnabled m f)

/-- A transcript segment (start time in seconds, text) (§3). -/
structure Segment where
  start : Nat
  text : List Char
deriving Repr, DecidableEq

/-- Verification status of a checked claim (§3). -/
inductive VerStatus
  | verified
  | disputed
  | unverifiable
deriving Repr, DecidableEq

/-- A fact-checked claim (§3): text, status, confidence, sources. -/
structure CheckedClaim where
  claim : List Char
  status : VerStatus
  confidence : ℚ
  sources : List (List Char)
deriving Repr, DecidableEq

/-- A research finding (§3): topic, supporting sources, note. -/
structure Finding where
  topic : List Char
  sources : List (List Char)
  note : List Char
deriving Repr, DecidableEq

/-- A citation entry (§3): transcript timestamp and excerpt. -/
structure CiteEntry where
  timestamp : Nat
  excerpt : List Char
deriving Repr, DecidableEq

/-- Outcome recorded in the stage trace. -/
inductive StageStatus
  | completed
  | failed
deriving Repr, DecidableEq

/-- Modelled from the spec: the shared pipeline state threaded through
all stages (§3). -/
structure PState where
  contentId : List Char
  mode : Mode
  features : Features
  transcript : List Segment
  summary : Option (List Char)
  researchFindings : Option (List Finding)
  factChecks : Option (List CheckedClaim)
  credibilityScore : Option ℚ
  citations : List CiteEntry
  trace : List (Stage × StageStatus)
deriving Repr, DecidableEq

/-- Stage-level errors (§6, §7). -/
inductive StageErr
  | noTranscriptAvailable
  | unsupportedLanguage
  | providerError
  | rateLimited
deriving Repr, DecidableEq

/-- Transcript-source outcome (§6). -/
inductive TranscriptRes
  | ok (segs : List Segment)
  | noTranscript
  | unsupportedLang
deriving Repr, DecidableEq

/-- Generation-provider outcome (§6). -/
inductive GenRes
  | ok (text : List Char)
  | provErr
  | rateLtd
deriving Repr, DecidableEq

/-- Web-search-provider outcome (§6). -/
inductive SearchRes
  | ok (fs : List Finding)
  | searchErr
deriving Repr, DecidableEq

/-- Modelled from the spec: the external collaborators of one run (§6) —
transcript source, generation provider, search provider, and the claims
the fact-checker extracts and verifies. -/
structure Collab where
  fetchTranscript : TranscriptRes
  generateSummary : GenRes
  searchFindings : SearchRes
  extractedClaims : List CheckedClaim
deriving Repr, DecidableEq

/-- Modelled from the spec: aggregate credibility score of the
Fact-Check stage — mean confidence across checked claims, 0 when no
claims were checked (§4.4). -/
def credScore (claims : List CheckedClaim) : ℚ :=
  if claims = [] then 0
  else (claims.map (fun cl => cl.confidence)).sum / claims.length

/-- Modelled from the spec: the citation entries the Cite stage appends,
anchored at transcript segment timestamps (§4.4). -/
def citeOf (segs : List Segment) : List CiteEntry :=
  segs.map (fun sg => ⟨sg.start, sg.text⟩)

/-- Modelled from the spec: one stage as a transform over pipeline state
(§4.4). Extract fails hard on a missing transcript; Research fails soft —
a search-provider error records an empty findings list and continues;
Fact-Check stores the checked claims and their aggregate score; Cite
appends citation entries. -/
def runStage (c : Collab) (st : PState) : Stage → Except StageErr PState
  | .extract =>
    match c.fetchTranscript with
    | .ok segs => .ok { st with transcript := segs }
    | .noTranscript => .error .noTranscriptAvailable
    | .unsupportedLang => .error .unsupportedLanguage
  | .summarize =>
    match c.generateSummary with
    | .ok txt => .ok { st with summary := some txt }
    | .provErr => .error .providerError
    | .rateLtd => .error .rateLimited
  | .research =>
    match c.searchFindings with
    | .ok fs => .ok { st with researchFindings := some fs }
    | .searchErr => .ok { st with researchFindings := some [] }
  | .factCheck =>
    .ok { st with
      factChecks := some c.extractedClaims,
      credibilityScore := some (credScore c.extractedClaims) }
  | .cite =>
    .ok { st with citations := st.citations ++ citeOf st.transcript }

/-- Mandatory stages abort the run on failure (§4.5). -/
def mandatory : Stage → Bool
  | .extract => true
  | .summarize => true
  | _ => false

/-- Terminal result of a run: final pipeline state and the aborting
error, if any. -/
structure RunResult where
  finalState : PState
  err : Option StageErr
deriving Repr, DecidableEq

/-- Modelled from the spec: execute the resolved stage list in order; a
mandatory-stage failure aborts with that stage's error, an optional-stage
failure is logged in the trace and execution continues (§4.5). Every
stage invocation appends one trace entry. -/
def execStages (c : Collab) : List Stage → PState → RunResult
  | [], st => ⟨st, none⟩
  | s :: rest, st =>
    match runStage c st s with
    | .ok st2 =>
      execStages c rest { st2 with trace := st2.trace ++ [(s, .completed)] }
    | .error e =>
      if mandatory s then
        ⟨{ st with trace := st.trace ++ [(s, .failed)] }, some e⟩
      else
        execStages c rest { st with trace := st.trace ++ [(s, .failed)] }

/-- Fresh pipeline state for a request. -/
def initState (cid : List Char) (m : Mode) (f : Features) : PState :=
  ⟨cid, m, f, [], none, none, none, none, [], []⟩

/-- Modelled from the spec: a full pipeline run for one request (§4.5). -/
def runPipeline (c : Collab) (cid : List Char) (m : Mode) (f : Features) :
    RunResult :=
  execStages c (stageSequence m f) (initState cid m f)

end Pipeline

namespace Pipeline

/-- C1: for mode=quick with no flags the stage sequence is exactly
[Extract, Summarize] and the run's citations list stays empty; in
general the sequence with no flags is exactly the mode's table row, the
table row is always a subsequence of the resolved sequence, every extra
stage is enabled by its feature flag, and Extract and Summarize are
always present. -/
theorem c1_stage_sequences :
    (stageSequence Mode.quick noFeatures = [Stage.extract, Stage.summarize])
    ∧ (∀ (c : Collab) (cid : List Char),
        (runPipeline c cid Mode.quick noFeatures).finalState.citations = [])
    ∧ (∀ m, stageSequence m noFeatures = modeStages m)
    ∧ (∀ m f, List.Sublist (modeStages m) (stageSequence m f))
    ∧ (∀ m f s, s ∈ stageSequence m f → s ∈ modeStages m ∨
        (s = Stage.research ∧ f.webResearch = true) ∨
        (s = Stage.factCheck ∧ f.factChecking = true) ∨
        (s = Stage.cite ∧ f.citations = true))
    ∧ (∀ m f, Stage.extract ∈ stageSequence m f ∧
        Stage.summarize ∈ stageSequence m f) := by
  refine ⟨by decide, ?_, by decide, by decide, by decide, by decide⟩
  intro c cid
  have hs : stageSequence Mode.quick noFeatures
      = [Stage.extract, Stage.summarize] := by decide
  rw [runPipeline, hs]
  cases h1 : c.fetchTranscript <;> cases h2 : c.generateSummary <;>
    simp [execStages, runStage, h1, h2, mandatory, initState]

/-- Witness for C1: the quick run of a concrete collaborator has no
citations, and the research stage added to quick by the webResearch flag
is flag-enabled. -/
theorem c1_stage_sequences_witness :
    ((runPipeline
        ⟨TranscriptRes.noTranscript, GenRes.provErr, SearchRes.searchErr, []⟩
        [] Mode.quick noFeatures).finalState.citations = [])
    ∧ (Stage.research ∈ modeStages Mode.quick ∨
        (Stage.research = Stage.research ∧
          (⟨false, true, false, false⟩ : Features).webResearch = true) ∨
        (Stage.research = Stage.factCheck ∧
          (⟨false, true, false, false⟩ : Features).factChecking = true) ∨
        (Stage.research = Stage.cite ∧
          (⟨false, true, false, false⟩ : Features).citations = true)) :=
  ⟨c1_stage_sequences.2.1 _ _,
   c1_stage_sequences.2.2.2.2.1 Mode.quick ⟨false, true, false, false⟩
     Stage.research (by decide)⟩

/-- C3: when the transcript source reports no transcript, Extract fails,
the whole run fails with `noTranscriptAvailable`, and Summarize is never
invoked (it has no entry in the stage trace). -/
theorem c3_no_transcript_aborts (c : Collab) (cid : List Char) (m : Mode)
    (f : Features) (h : c.fetchTranscript = TranscriptRes.noTranscript) :
    (runPipeline c cid m f).err = some StageErr.noTranscriptAvailable
    ∧ Stage.summarize ∉
        ((runPipeline c cid m f).finalState.trace.map Prod.fst) := by
  have hs : stageSequence m f = Stage.extract :: Stage.summarize ::
      ([Stage.research, Stage.factCheck, Stage.cite].filter
        (stageEnabled m f)) := rfl
  rw [runPipeline, hs]
  simp [execStages, runStage, h, mandatory, initState]

/-- Witness for C3 at a concrete collaborator in research mode. -/
theorem c3_no_transcript_aborts_witness :
    (runPipeline
        ⟨TranscriptRes.noTranscript, GenRes.ok [], SearchRes.ok [], []⟩
        [] Mode.research noFeatures).err
      = some StageErr.noTranscriptAvailable
    ∧ Stage.summarize ∉
        ((runPipeline
            ⟨TranscriptRes.noTranscript, GenRes.ok [], SearchRes.ok [], []⟩
            [] Mode.research noFeatures).finalState.trace.map Prod.fst) :=
  c3_no_transcript_aborts _ [] Mode.research noFeatures rfl

/-- C4: in research mode, when the search provider errors, the Research
stage records an empty findings list instead of failing, and the run
still executes through Cite and completes without error. -/
theorem c4_research_soft_fail (c : Collab) (cid : List Char) (f : Features)
    (segs : List Segment) (txt : List Char)
    (h1 : c.fetchTranscript = TranscriptRes.ok segs)
    (h2 : c.generateSummary = GenRes.ok txt)
    (h3 : c.searchFindings = SearchRes.searchErr) :
    (runPipeline c cid Mode.research f).err = none
    ∧ (runPipeline c cid Mode.research f).finalState.researchFindings
        = some []
    ∧ (Stage.cite, StageStatus.completed) ∈
        (runPipeline c cid Mode.research f).finalState.trace := by
  have hs : stageSequence Mode.research f
      = [Stage.extract, Stage.summarize, Stage.research, Stage.factCheck,
          Stage.cite] := rfl
  rw [runPipeline, hs]
  simp [execStages, runStage, h1, h2, h3, initState, mandatory]

/-- Witness for C4 at a concrete collaborator. -/
theorem c4_research_soft_fail_witness :
    (runPipeline
        ⟨TranscriptRes.ok [⟨0, []⟩], GenRes.ok [], SearchRes.searchErr, []⟩
        [] Mode.research noFeatures).err = none
    ∧ (runPipeline
        ⟨TranscriptRes.ok [⟨0, []⟩], GenRes.ok [], SearchRes.searchErr, []⟩
        [] Mode.research noFeatures).finalState.researchFindings = some []
    ∧ (Stage.cite, StageStatus.completed) ∈
        (runPipeline
          ⟨TranscriptRes.ok [⟨0, []⟩], GenRes.ok [], SearchRes.searchErr, []⟩
          [] Mode.research noFeatures).finalState.trace :=
  c4_research_soft_fail _ [] noFeatures [⟨0, []⟩] [] rfl rfl rfl

/-- C7: the Fact-Check stage stores an aggregate credibility score that
is 0 when no claims were checked and otherwise is the arithmetic mean of
the checked claims' confidences (characterized multiplicatively:
score × number of claims = sum of confidences). -/
theorem c7_cred_score (c : Collab) (st st2 : PState)
    (h : runStage c st Stage.factCheck = Except.ok st2) :
    st2.credibilityScore = some (credScore c.extractedClaims)
    ∧ (c.extractedClaims = [] → credScore c.extractedClaims = 0)
    ∧ (c.extractedClaims ≠ [] →
        credScore c.extractedClaims * (c.extractedClaims.length : ℚ)
          = ((c.extractedClaims.map fun cl => cl.confidence).sum)) := by
  refine ⟨?_, ?_, ?_⟩
  · have h2 : st2 = { st with
        factChecks := some c.extractedClaims,
        credibilityScore := some (credScore c.extractedClaims) } := by
      have := h
      simp [runStage] at this
      exact this.symm
    rw [h2]
  · intro he
    simp [credScore, he]
  · intro hne
    rw [credScore, if_neg hne]
    rw [div_mul_cancel₀]
    have hlen : c.extractedClaims.length ≠ 0 := by
      simpa [List.length_eq_zero] using hne
    exact_mod_cast hlen

/-- Witness for C7: two checked claims with confidences 1/2 and 1 yield
a stored score whose product with the claim count is 3/2. -/
theorem c7_cred_score_witness :
    (let claims0 : List CheckedClaim :=
      [⟨[], VerStatus.verified, 1/2, []⟩, ⟨[], VerStatus.disputed, 1, []⟩]
    let st0 := initState [] Mode.quick noFeatures
    let st2 : PState := { st0 with
      factChecks := some claims0,
      credibilityScore := some (credScore claims0) }
    st2.credibilityScore = some (credScore claims0)
      ∧ credScore claims0 * (claims0.length : ℚ)
          = (claims0.map fun cl => cl.confidence).sum) := by
  have h := c7_cred_score
    ⟨TranscriptRes.noTranscript, GenRes.provErr, SearchRes.searchErr,
      [⟨[], VerStatus.verified, 1/2, []⟩, ⟨[], VerStatus.disputed, 1, []⟩]⟩
    (initState [] Mode.quick noFeatures) _ rfl
  exact ⟨h.1, h.2.2 (by decide)⟩

end Pipeline

namespace CacheLease

/-- Modelled from the spec: the cache slot for one fingerprint — absent,
holding the in-progress lease placeholder, or holding a completed
result (§3 CacheEntry, §4.1). -/
inductive Slot
  | absent
  | inProgress
  | done
deriving Repr, DecidableEq

/-- Outcome with which a caller's request terminates: it held the lease
and computed (one Extract/Summarize execution), it found a completed
entry on first lookup, or it blocked on the lease and received the
holder's result. -/
inductive Outcome
  | computed
  | cachedHit
  | received
deriving Repr, DecidableEq

/-- Local state of one caller requesting the fingerprint. -/
inductive RState
  | start
  | leased
  | waiting
  | finished (o : Outcome)
deriving Repr, DecidableEq

/-- Modelled from the spec: the atomic cache interactions of one caller
(§4.1, §5). From `start`, `putInProgress` acquires the lease when the
slot is absent, observes the in-progress signal and blocks when a lease
is held, or hits a completed entry. From `leased`, the caller runs the
computation (the returned flag counts the Extract/Summarize execution)
and completes the entry. From `waiting`, the caller can only proceed
once the entry is completed, receiving that result. `none` means the
caller cannot step (blocked or finished). -/
def stepReq : Slot → RState → Option (Slot × RState × Bool)
  | .absent, .start => some (.inProgress, .leased, false)
  | .inProgress, .start => some (.inProgress, .waiting, false)
  | .done, .start => some (.done, .finished .cachedHit, false)
  | _, .leased => some (.done, .finished .computed, true)
  | .done, .waiting => some (.done, .finished .received, false)
  | _, _ => none

/-- Global configuration: the shared cache slot, the two concurrent
callers with identical fingerprint, and the number of Extract/Summarize
executions performed so far. -/
structure Sys where
  slot : Slot
  r1 : RState
  r2 : RState
  execCount : Nat
deriving Repr, DecidableEq

/-- Interleaving semantics: at each step either caller performs its next
atomic cache interaction. -/
inductive SysStep : Sys → Sys → Prop
  | one {s : Sys} {sl : Slot} {r : RState} {b : Bool} :
      stepReq s.slot s.r1 = some (sl, r, b) →
      SysStep s ⟨sl, r, s.r2, s.execCount + (if b then 1 else 0)⟩
  | two {s : Sys} {sl : Slot} {r : RState} {b : Bool} :
      stepReq s.slot s.r2 = some (sl, r, b) →
      SysStep s ⟨sl, s.r1, r, s.execCount + (if b then 1 else 0)⟩

/-- Both callers start concurrently against an empty cache. -/
def initSys : Sys := ⟨.absent, .start, .start, 0⟩

/-- Configurations reachable by interleaving the two callers. -/
def Reachable (s : Sys) : Prop := Relation.ReflTransGen SysStep initSys s

/-- 1 when this caller has performed the computation. -/
def cnt (r : RState) : Nat :=
  if r = RState.finished Outcome.computed then 1 else 0

/-- A caller that holds or has used the lease to compute. -/
def busy (r : RState) : Prop :=
  r = RState.leased ∨ r = RState.finished Outcome.computed

/-- Inductive invariant of the two-caller cache system. -/
def inv (s : Sys) : Prop :=
  s.execCount = cnt s.r1 + cnt s.r2
  ∧ ¬(busy s.r1 ∧ busy s.r2)
  ∧ (s.slot = Slot.absent → s.r1 = RState.start ∧ s.r2 = RState.start)
  ∧ (s.slot = Slot.done ↔
      (s.r1 = RState.finished Outcome.computed ∨
        s.r2 = RState.finished Outcome.computed))
  ∧ ((s.r1 = RState.leased ∨ s.r2 = RState.leased) →
      s.slot = Slot.inProgress)
  ∧ ((s.r1 = RState.finished Outcome.cachedHit ∨
      s.r1 = RState.finished Outcome.received) → s.slot = Slot.done)
  ∧ ((s.r2 = RState.finished Outcome.cachedHit ∨
      s.r2 = RState.finished Outcome.received) → s.slot = Slot.done)

theorem inv_init : inv initSys := by
  simp [inv, initSys, cnt, busy]

theorem inv_step {s t : Sys} (hst : SysStep s t) (hv : inv s) : inv t := by
  obtain ⟨h1, h2, h3, h4, h5, h6, h7⟩ := hv
  cases hst with
  | one h =>
    cases hsl : s.slot <;> cases hr1 : s.r1 <;>
      rw [hsl, hr1] at h <;> simp [stepReq] at h <;>
      obtain ⟨rfl, rfl, rfl⟩ := h <;>
      simp_all [inv, cnt, busy]
  | two h =>
    cases hsl : s.slot <;> cases hr2 : s.r2 <;>
      rw [hsl, hr2] at h <;> simp [stepReq] at h <;>
      obtain ⟨rfl, rfl, rfl⟩ := h <;>
      simp_all [inv, cnt, busy]

theorem inv_reachable {s : Sys} (h : Reachable s) : inv s := by
  induction h with
  | refl => exact inv_init
  | tail _ hstep ih => exact inv_step hstep ih

end CacheLease

namespace CacheLease

/-- C2: in every reachable interleaving of two concurrent requests with
an identical fingerprint, at most one caller ever holds the lease at a
time, and when both callers have finished, exactly one Extract/Summarize
computation has been executed: exactly one caller computed, and the
other received the completed result (by blocking on the lease or by a
cache hit). -/
theorem c2_single_computation (s : Sys) (hr : Reachable s) :
    (¬(s.r1 = RState.leased ∧ s.r2 = RState.leased))
    ∧ (∀ o1 o2, s.r1 = RState.finished o1 → s.r2 = RState.finished o2 →
        s.execCount = 1
        ∧ ¬(o1 = Outcome.computed ∧ o2 = Outcome.computed)
        ∧ (o1 = Outcome.computed ∨ o2 = Outcome.computed)
        ∧ (o1 = Outcome.computed →
            o2 = Outcome.cachedHit ∨ o2 = Outcome.received)
        ∧ (o2 = Outcome.computed →
            o1 = Outcome.cachedHit ∨ o1 = Outcome.received)) := by
  obtain ⟨h1, h2, h3, h4, h5, h6, h7⟩ := inv_reachable hr
  constructor
  · rintro ⟨ha, hb⟩
    exact h2 ⟨Or.inl ha, Or.inl hb⟩
  · intro o1 o2 ho1 ho2
    have hone : o1 = Outcome.computed ∨ o2 = Outcome.computed := by
      by_contra hno
      push_neg at hno
      obtain ⟨hn1, hn2⟩ := hno
      have hs6 : s.slot = Slot.done := by
        apply h6
        cases o1 with
        | computed => exact absurd rfl hn1
        | cachedHit => exact Or.inl (by rw [ho1])
        | received => exact Or.inr (by rw [ho1])
      have := h4.mp hs6
      rcases this with hc | hc
      · rw [ho1] at hc
        exact hn1 (by injection hc)
      · rw [ho2] at hc
        exact hn2 (by injection hc)
    have hnotboth : ¬(o1 = Outcome.computed ∧ o2 = Outcome.computed) := by
      rintro ⟨ha, hb⟩
      subst ha hb
      exact h2 ⟨Or.inr ho1, Or.inr ho2⟩
    have hcount : s.execCount = 1 := by
      rw [h1, ho1, ho2]
      rcases hone with hc | hc
      · subst hc
        have : o2 ≠ Outcome.computed := fun hh => hnotboth ⟨rfl, hh⟩
        simp [cnt, this]
      · subst hc
        have : o1 ≠ Outcome.computed := fun hh => hnotboth ⟨hh, rfl⟩
        simp [cnt, this]
    refine ⟨hcount, hnotboth, hone, ?_, ?_⟩
    · intro hc
      cases o2 with
      | computed => exact absurd ⟨hc, rfl⟩ hnotboth
      | cachedHit => exact Or.inl rfl
      | received => exact Or.inr rfl
    · intro hc
      cases o1 with
      | computed => exact absurd ⟨rfl, hc⟩ hnotboth
      | cachedHit => exact Or.inl rfl
      | received => exact Or.inr rfl

/-- Witness for C2: the concrete interleaving acquire–block–compute–
receive reaches the final configuration where caller one computed,
caller two received the result, and exactly one execution occurred. -/
theorem c2_single_computation_witness :
    (⟨Slot.done, RState.finished Outcome.computed,
      RState.finished Outcome.received, 1⟩ : Sys).execCount = 1
    ∧ ¬(Outcome.computed = Outcome.computed ∧
        Outcome.received = Outcome.computed)
    ∧ (Outcome.computed = Outcome.computed ∨
        Outcome.received = Outcome.computed)
    ∧ (Outcome.computed = Outcome.computed →
        Outcome.received = Outcome.cachedHit ∨
        Outcome.received = Outcome.received)
    ∧ (Outcome.received = Outcome.computed →
        Outcome.computed = Outcome.cachedHit ∨
        Outcome.computed = Outcome.received) := by
  have hreach : Reachable
      ⟨Slot.done, RState.finished Outcome.computed,
        RState.finished Outcome.received, 1⟩ := by
    have s1 : SysStep initSys
        ⟨Slot.inProgress, RState.leased, RState.start, 0⟩ :=
      SysStep.one (s := initSys) rfl
    have s2 : SysStep ⟨Slot.inProgress, RState.leased, RState.start, 0⟩
        ⟨Slot.inProgress, RState.leased, RState.waiting, 0⟩ :=
      SysStep.two (s := ⟨Slot.inProgress, RState.leased, RState.start, 0⟩) rfl
    have s3 : SysStep ⟨Slot.inProgress, RState.leased, RState.waiting, 0⟩
        ⟨Slot.done, RState.finished Outcome.computed, RState.waiting, 1⟩ :=
      SysStep.one
        (s := ⟨Slot.inProgress, RState.leased, RState.waiting, 0⟩) rfl
    have s4 : SysStep
        ⟨Slot.done, RState.finished Outcome.computed, RState.waiting, 1⟩
        ⟨Slot.done, RState.finished Outcome.computed,
          RState.finished Outcome.received, 1⟩ :=
      SysStep.two
        (s := ⟨Slot.done, RState.finished Outcome.computed,
          RState.waiting, 1⟩) rfl
    exact Relation.ReflTransGen.head s1 (Relation.ReflTransGen.head s2
      (Relation.ReflTransGen.head s3 (Relation.ReflTransGen.single s4)))
  exact (c2_single_computation _ hreach).2 Outcome.computed Outcome.received
    rfl rfl

end CacheLease

namespace RateLimit

/-- Rate limiter configuration: (requests, windowSeconds) (§4.2). -/
structure Config where
  maxReq : Nat
  window : Nat
deriving Repr, DecidableEq

/-- Modelled from the spec: sliding-window check for one client (§4.2):
drop recorded timestamps that fall outside the window ending `now`,
reject when the remaining count has reached the limit, and otherwise
record the admitted request. The history holds timestamps of previously
admitted requests for this client identity. -/
def check (cfg : Config) (hist : List Nat) (now : Nat) :
    Bool × List Nat :=
  let active := hist.filter (fun t => decide (now < t + cfg.window))
  if active.length < cfg.maxReq then (true, now :: active)
  else (false, active)

/-- Process a sequence of request timestamps for one client, collecting
the allow/reject decisions. -/
def run (cfg : Config) : List Nat → List Nat → List Bool × List Nat
  | [], hist => ([], hist)
  | t :: ts, hist =>
    let step := check cfg hist t
    let rest := run cfg ts step.2
    (step.1 :: rest.1, rest.2)

/-- Result of one request at the service boundary: rejected by the rate
limiter with the distinct error kind, or handed to the pipeline. -/
inductive ReqResult
  | rateLimited
  | completed (r : Pipeline.RunResult)
deriving Repr, DecidableEq

/-- Modelled from the spec: the request handler consults the rate
limiter before orchestration (§2, §4.2, §7): a rejected request returns
the distinct `rateLimited` error kind and the pipeline — hence every
stage — is never invoked. -/
def handleRequest (cfg : Config) (hist : List Nat) (now : Nat)
    (c : Pipeline.Collab) (cid : List Char) (m : Pipeline.Mode)
    (f : Pipeline.Features) : ReqResult × List Nat :=
  let step := check cfg hist now
  if step.1 then
    (ReqResult.completed (Pipeline.runPipeline c cid m f), step.2)
  else
    (ReqResult.rateLimited, step.2)

theorem filter_in_window {hist : List Nat} {now w : Nat}
    (h : ∀ t ∈ hist, now < t + w) :
    hist.filter (fun t => decide (now < t + w)) = hist := by
  rw [List.filter_eq_self]
  intro t ht
  simpa using h t ht

theorem filter_out_window {hist : List Nat} {now w : Nat}
    (h : ∀ t ∈ hist, t + w ≤ now) :
    hist.filter (fun t => decide (now < t + w)) = [] := by
  rw [List.filter_eq_nil_iff]
  intro t ht
  simpa using h t ht

end RateLimit

namespace RateLimit

/-- C6: with a (5 requests, 60 seconds) window, five requests inside one
window are all allowed and the sixth is rejected; once 60 seconds have
passed since the last request of the window, a new request is allowed
again; and a rejected request yields the distinct rate-limit error kind
from the handler without the pipeline (hence any stage) running. -/
theorem c6_rate_limit (t1 t2 t3 t4 t5 t6 : Nat)
    (h12 : t1 ≤ t2) (h23 : t2 ≤ t3) (h34 : t3 ≤ t4) (h45 : t4 ≤ t5)
    (h56 : t5 ≤ t6) (hwin : t6 < t1 + 60) :
    (run ⟨5, 60⟩ [t1, t2, t3, t4, t5, t6] []).1
        = [true, true, true, true, true, false]
    ∧ (∀ t7, t6 + 60 ≤ t7 →
        (check ⟨5, 60⟩ (run ⟨5, 60⟩ [t1, t2, t3, t4, t5, t6] []).2 t7).1
          = true)
    ∧ (∀ (hist : List Nat) (now : Nat) (c : Pipeline.Collab)
        (cid : List Char) (m : Pipeline.Mode) (f : Pipeline.Features),
        (check ⟨5, 60⟩ hist now).1 = false →
        (handleRequest ⟨5, 60⟩ hist now c cid m f).1
          = ReqResult.rateLimited) := by
  have e1 : check ⟨5, 60⟩ [] t1 = (true, [t1]) := by
    simp [check]
  have e2 : check ⟨5, 60⟩ [t1] t2 = (true, [t2, t1]) := by
    unfold check
    rw [filter_in_window (by intro t ht; simp at ht ⊢; omega)]
    simp
  have e3 : check ⟨5, 60⟩ [t2, t1] t3 = (true, [t3, t2, t1]) := by
    unfold check
    rw [filter_in_window (by
      intro t ht; simp at ht ⊢; rcases ht with rfl | rfl <;> omega)]
    simp
  have e4 : check ⟨5, 60⟩ [t3, t2, t1] t4 = (true, [t4, t3, t2, t1]) := by
    unfold check
    rw [filter_in_window (by
      intro t ht; simp at ht ⊢; rcases ht with rfl | rfl | rfl <;> omega)]
    simp
  have e5 : check ⟨5, 60⟩ [t4, t3, t2, t1] t5
      = (true, [t5, t4, t3, t2, t1]) := by
    unfold check
    rw [filter_in_window (by
      intro t ht; simp at ht ⊢
      rcases ht with rfl | rfl | rfl | rfl <;> omega)]
    simp
  have e6 : check ⟨5, 60⟩ [t5, t4, t3, t2, t1] t6
      = (false, [t5, t4, t3, t2, t1]) := by
    unfold check
    rw [filter_in_window (by
      intro t ht; simp at ht ⊢
      rcases ht with rfl | rfl | rfl | rfl | rfl <;> omega)]
    simp
  have hrun : run ⟨5, 60⟩ [t1, t2, t3, t4, t5, t6] []
      = ([true, true, true, true, true, false], [t5, t4, t3, t2, t1]) := by
    simp [run, e1, e2, e3, e4, e5, e6]
  refine ⟨by rw [hrun], ?_, ?_⟩
  · intro t7 h7
    rw [hrun]
    show (check ⟨5, 60⟩ [t5, t4, t3, t2, t1] t7).1 = true
    unfold check
    rw [filter_out_window (by
      intro t ht; simp at ht ⊢
      rcases ht with rfl | rfl | rfl | rfl | rfl <;> omega)]
    simp
  · intro hist now c cid m f hrej
    simp [handleRequest, hrej]

/-- Witness for C6 at request times 0,10,20,30,40,50 with a retry at
time 110, and a concrete saturated history for the rejection clause. -/
theorem c6_rate_limit_witness :
    (run ⟨5, 60⟩ [0, 10, 20, 30, 40, 50] []).1
        = [true, true, true, true, true, false]
    ∧ (check ⟨5, 60⟩ (run ⟨5, 60⟩ [0, 10, 20, 30, 40, 50] []).2 110).1
        = true
    ∧ (handleRequest ⟨5, 60⟩ [0, 0, 0, 0, 0] 0
        ⟨Pipeline.TranscriptRes.noTranscript, Pipeline.GenRes.provErr,
          Pipeline.SearchRes.searchErr, []⟩
        [] Pipeline.Mode.quick Pipeline.noFeatures).1
        = ReqResult.rateLimited := by
  have h := c6_rate_limit 0 10 20 30 40 50 (by omega) (by omega) (by omega)
    (by omega) (by omega) (by omega)
  exact ⟨h.1, h.2.1 110 (by omega),
    h.2.2 [0, 0, 0, 0, 0] 0 _ [] Pipeline.Mode.quick Pipeline.noFeatures
      (by decide)⟩

end RateLimit

namespace Retrieval

/-- A retrieval chunk (§3): id, owning content item, text, character
offsets. The embedding vector lives with the external provider and is
reflected through the similarity function passed to `search`. -/
structure Chunk where
  chunkId : Nat
  contentId : Nat
  text : List Char
  startOffset : Nat
  endOffset : Nat
deriving Repr, DecidableEq

/-- Insert a scored chunk into a list sorted by score descending. -/
def insertDesc (x : Chunk × ℚ) : List (Chunk × ℚ) → List (Chunk × ℚ)
  | [] => [x]
  | y :: ys => if y.2 ≤ x.2 then x :: y :: ys else y :: insertDesc x ys

/-- Insertion sort by score descending. -/
def sortDesc : List (Chunk × ℚ) → List (Chunk × ℚ)
  | [] => []
  | x :: xs => insertDesc x (sortDesc xs)

/-- Modelled from the spec: `search(contentId, queryText, k,
scoreThreshold)` over the vector index (§4.3): restrict to the chunks of
the requested content item (queries never cross items), score each
against the query through the external embedding similarity `sim`, keep
scores ≥ scoreThreshold, order by similarity descending, and return the
top k. The empty list — not an error — results when nothing clears the
threshold. -/
def search (index : List Chunk) (cid : Nat) (sim : Chunk → ℚ)
    (k : Nat) (thr : ℚ) : List (Chunk × ℚ) :=
  (sortDesc (((index.filter (fun ch => ch.contentId = cid)).map
      (fun ch => (ch, sim ch))).filter (fun p => thr ≤ p.2))).take k

theorem mem_insertDesc {x z : Chunk × ℚ} {l : List (Chunk × ℚ)}
    (h : z ∈ insertDesc x l) : z = x ∨ z ∈ l := by
  induction l with
  | nil => simpa [insertDesc] using h
  | cons y ys ih =>
    unfold insertDesc at h
    by_cases hc : y.2 ≤ x.2
    · rw [if_pos hc] at h
      simpa using h
    · rw [if_neg hc] at h
      rcases List.mem_cons.mp h with hz | hz
      · exact Or.inr (by simp [hz])
      · rcases ih hz with hz2 | hz2
        · exact Or.inl hz2
        · exact Or.inr (by simp [hz2])

theorem mem_sortDesc {z : Chunk × ℚ} {l : List (Chunk × ℚ)}
    (h : z ∈ sortDesc l) : z ∈ l := by
  induction l with
  | nil => simp [sortDesc] at h
  | cons y ys ih =>
    unfold sortDesc at h
    rcases mem_insertDesc h with hz | hz
    · simp [hz]
    · simp [ih hz]

theorem pairwise_insertDesc {x : Chunk × ℚ} {l : List (Chunk × ℚ)}
    (h : l.Pairwise (fun a b => b.2 ≤ a.2)) :
    (insertDesc x l).Pairwise (fun a b => b.2 ≤ a.2) := by
  induction l with
  | nil => simp [insertDesc]
  | cons y ys ih =>
    rw [List.pairwise_cons] at h
    obtain ⟨hy, hys⟩ := h
    unfold insertDesc
    by_cases hc : y.2 ≤ x.2
    · rw [if_pos hc]
      refine List.Pairwise.cons ?_ (List.Pairwise.cons hy hys)
      intro z hz
      rcases List.mem_cons.mp hz with rfl | hz2
      · exact hc
      · exact le_trans (hy z hz2) hc
    · rw [if_neg hc]
      refine List.Pairwise.cons ?_ (ih hys)
      intro z hz
      rcases mem_insertDesc hz with rfl | hz2
      · exact le_of_lt (lt_of_not_le hc)
      · exact hy z hz2

theorem pairwise_sortDesc (l : List (Chunk × ℚ)) :
    (sortDesc l).Pairwise (fun a b => b.2 ≤ a.2) := by
  induction l with
  | nil => simp [sortDesc]
  | cons y ys ih => exact pairwise_insertDesc ih

/-- C5: the retrieval search result is ordered by similarity descending,
contains only chunks of the requested content item whose score clears
the threshold (never another item's chunks), and is empty — not an
error — when no chunk of that item clears the threshold. -/
theorem c5_search_contract (index : List Chunk) (cid : Nat)
    (sim : Chunk → ℚ) (k : Nat) (thr : ℚ) :
    ((search index cid sim k thr).Pairwise (fun a b => b.2 ≤ a.2))
    ∧ (∀ p ∈ search index cid sim k thr,
        thr ≤ p.2 ∧ p.2 = sim p.1 ∧ p.1.contentId = cid ∧ p.1 ∈ index)
    ∧ ((∀ ch ∈ index, ch.contentId = cid → sim ch < thr) →
        search index cid sim k thr = []) := by
  refine ⟨?_, ?_, ?_⟩
  · exact (pairwise_sortDesc _).sublist (List.take_sublist _ _)
  · intro p hp
    unfold search at hp
    have hp2 := mem_sortDesc (List.mem_of_mem_take hp)
    rw [List.mem_filter] at hp2
    obtain ⟨hmem, hthr⟩ := hp2
    rw [List.mem_map] at hmem
    obtain ⟨ch, hch, rfl⟩ := hmem
    rw [List.mem_filter] at hch
    obtain ⟨hidx, hcid⟩ := hch
    exact ⟨by simpa using hthr, rfl, by simpa using hcid, hidx⟩
  · intro hall
    unfold search
    have hkept : ((index.filter (fun ch => ch.contentId = cid)).map
        (fun ch => (ch, sim ch))).filter
          (fun p : Chunk × ℚ => thr ≤ p.2) = [] := by
      rw [List.filter_eq_nil_iff]
      intro p hp
      rw [List.mem_map] at hp
      obtain ⟨ch, hch, rfl⟩ := hp
      rw [List.mem_filter] at hch
      obtain ⟨hidx, hcid⟩ := hch
      have := hall ch hidx (by simpa using hcid)
      simpa using not_le.mpr this
    rw [hkept]
    simp [sortDesc]

end Retrieval

namespace Retrieval

/-- Witness for C5: a two-item index where only the requested item's
chunk is returned (score 2 ≥ threshold 1), and a threshold of 3 that no
chunk clears yields the empty result. -/
theorem c5_search_contract_witness :
    ((1 : ℚ) ≤ ((⟨1, 7, [], 0, 10⟩ : Chunk), (2 : ℚ)).2
      ∧ ((⟨1, 7, [], 0, 10⟩ : Chunk), (2 : ℚ)).2
          = (fun ch : Chunk => if ch.chunkId = 1 then (2 : ℚ) else 0)
              ((⟨1, 7, [], 0, 10⟩ : Chunk), (2 : ℚ)).1
      ∧ ((⟨1, 7, [], 0, 10⟩ : Chunk), (2 : ℚ)).1.contentId = 7
      ∧ ((⟨1, 7, [], 0, 10⟩ : Chunk), (2 : ℚ)).1
          ∈ [(⟨1, 7, [], 0, 10⟩ : Chunk), ⟨2, 8, [], 0, 10⟩])
    ∧ search [⟨1, 7, [], 0, 10⟩, ⟨2, 8, [], 0, 10⟩] 7
        (fun ch => if ch.chunkId = 1 then 2 else 0) 5 3 = [] := by
  constructor
  · refine (c5_search_contract [⟨1, 7, [], 0, 10⟩, ⟨2, 8, [], 0, 10⟩] 7
      (fun ch => if ch.chunkId = 1 then 2 else 0) 5 1).2.1 _ ?_
    rw [show search [⟨1, 7, [], 0, 10⟩, ⟨2, 8, [], 0, 10⟩] 7
      (fun ch => if ch.chunkId = 1 then 2 else 0) 5 1
      = [(⟨1, 7, [], 0, 10⟩, 2)] from rfl]
    exact List.mem_singleton.mpr rfl
  · exact (c5_search_contract [⟨1, 7, [], 0, 10⟩, ⟨2, 8, [], 0, 10⟩] 7
      (fun ch => if ch.chunkId = 1 then 2 else 0) 5 3).2.2 (by decide)

end Retrieval
